import Mathlib

/-!
Formal model of the recurring-job scheduler in `src/scheduler.py`
(module-level helpers, the recurrence calculator, `ScheduleStore`, and the
`SchedulerService` poll loop), together with proofs settling the claims about
its specification.

Python `datetime.datetime` objects are embedded as a six-field structure of
naive calendar components.  Python's `datetime` constructor enforces field
validity (month 1-12, day within month, hour < 24, ...), so every datetime the
program manipulates satisfies the `Valid` predicate below; comparison between
such datetimes is comparison of the instants they denote, embedded here as
comparison of `toSec` (seconds elapsed since a fixed calendar origin).
-/

set_option maxHeartbeats 1000000

/-- A naive calendar datetime, second precision, mirroring Python
`datetime.datetime` as used by `src/scheduler.py`. -/
structure Datetime where
  year : Nat
  month : Nat
  day : Nat
  hour : Nat
  minute : Nat
  second : Nat
deriving Repr, DecidableEq

/-- The Gregorian leap-year test, exactly as inlined in `_bump_month`
(scheduler.py line 70): `year % 4 == 0 and (year % 100 != 0 or year % 400 == 0)`. -/
def isLeap (y : Nat) : Bool := y % 4 == 0 && (y % 100 != 0 || y % 400 == 0)

/-- The `last_day_lookup` month-length table built inside `_bump_month`
(scheduler.py lines 68-81). -/
def last_day_lookup (y : Nat) : List Nat :=
  [31, if isLeap y then 29 else 28, 31, 30, 31, 30, 31, 31, 30, 31, 30, 31]

/-- Length of month `m` (1-12) of year `y`, read off `last_day_lookup` the way
`_bump_month` indexes it (`last_day_lookup[month - 1]`). -/
def monthLen (y m : Nat) : Nat := (last_day_lookup y).getD (m - 1) 31

/-- Number of days in year `y` (366 in leap years). -/
def daysInYear (y : Nat) : Nat := if isLeap y then 366 else 365

/-- Days elapsed in all calendar years strictly before year `y` (origin fixed
at year 0; only differences and order matter for the model). -/
def daysBeforeYear : Nat → Nat
  | 0 => 0
  | y + 1 => daysBeforeYear y + daysInYear y

/-- Days elapsed in year `y` strictly before month `m`. -/
def daysBeforeMonth (y m : Nat) : Nat := ((last_day_lookup y).take (m - 1)).sum

/-- Day index of a datetime's date (0 = January 1 of year 0). -/
def toOrdinal (dt : Datetime) : Nat :=
  daysBeforeYear dt.year + daysBeforeMonth dt.year dt.month + (dt.day - 1)

/-- Seconds elapsed since the calendar origin: the instant a valid datetime
denotes.  Python compares `datetime` values as instants; on valid datetimes
that order coincides with comparing `toSec`. -/
def toSec (dt : Datetime) : Nat :=
  toOrdinal dt * 86400 + dt.hour * 3600 + dt.minute * 60 + dt.second

/-- The field-validity invariant Python's `datetime` constructor enforces
(no upper year bound is imposed here; Python additionally caps year at 9999,
which only the string parsers below need to know about). -/
def Valid (dt : Datetime) : Prop :=
  1 ≤ dt.month ∧ dt.month ≤ 12 ∧ 1 ≤ dt.day ∧ dt.day ≤ monthLen dt.year dt.month ∧
    dt.hour < 24 ∧ dt.minute < 60 ∧ dt.second < 60

instance (dt : Datetime) : Decidable (Valid dt) := by unfold Valid; infer_instance

theorem monthLen_pos (y m : Nat) (h1 : 1 ≤ m) (h2 : m ≤ 12) :
    28 ≤ monthLen y m ∧ monthLen y m ≤ 31 := by
  interval_cases m <;> simp [monthLen, last_day_lookup] <;> cases isLeap y <;> simp

theorem daysBeforeMonth_succ (y m : Nat) (h1 : 1 ≤ m) (h2 : m ≤ 12) :
    daysBeforeMonth y (m + 1) = daysBeforeMonth y m + monthLen y m := by
  interval_cases m <;>
    simp [daysBeforeMonth, monthLen, last_day_lookup, List.take_succ] <;> omega

theorem daysBeforeMonth_one (y : Nat) : daysBeforeMonth y 1 = 0 := rfl

theorem daysBeforeMonth_last (y : Nat) :
    daysBeforeMonth y 12 + monthLen y 12 = daysInYear y := by
  simp [daysBeforeMonth, monthLen, last_day_lookup, daysInYear]
  cases isLeap y <;> simp

/-- One calendar day forward.  `dt + timedelta(days=1)` in Python; on valid
datetimes `timedelta` day-addition is exactly this calendar step. -/
def addDay (dt : Datetime) : Datetime :=
  if dt.day < monthLen dt.year dt.month then { dt with day := dt.day + 1 }
  else if dt.month < 12 then { dt with month := dt.month + 1, day := 1 }
  else { dt with year := dt.year + 1, month := 1, day := 1 }

theorem addDay_valid {dt : Datetime} (hv : Valid dt) : Valid (addDay dt) := by
  obtain ⟨h1, h2, h3, h4, h5, h6, h7⟩ := hv
  unfold addDay
  split
  · rename_i hd
    unfold Valid
    dsimp only
    omega
  · split
    · rename_i hd hm
      have hp := monthLen_pos dt.year (dt.month + 1) (by omega) (by omega)
      unfold Valid
      dsimp only
      omega
    · rename_i hd hm
      have hp := monthLen_pos (dt.year + 1) 1 le_rfl (by omega)
      unfold Valid
      dsimp only
      omega

theorem toSec_addDay {dt : Datetime} (hv : Valid dt) :
    toSec (addDay dt) = toSec dt + 86400 := by
  obtain ⟨h1, h2, h3, h4, h5, h6, h7⟩ := hv
  unfold addDay
  split
  · rename_i hd
    simp only [toSec, toOrdinal]
    omega
  · split
    · rename_i hd hm
      have hlen := daysBeforeMonth_succ dt.year dt.month h1 h2
      simp only [toSec, toOrdinal]
      omega
    · rename_i hd hm
      have hm12 : dt.month = 12 := by omega
      have hlast := daysBeforeMonth_last dt.year
      have hone : daysBeforeMonth (dt.year + 1) 1 = 0 := daysBeforeMonth_one _
      have hy : daysBeforeYear (dt.year + 1) = daysBeforeYear dt.year + daysInYear dt.year := rfl
      have hml : monthLen dt.year 12 = 31 := by
        simp [monthLen, last_day_lookup]
      simp only [toSec, toOrdinal]
      rw [hone, hy]
      rw [hm12] at hd h4 ⊢
      omega

/-- `n` calendar days forward; `dt + timedelta(days=n)`. -/
def addDays (dt : Datetime) : Nat → Datetime
  | 0 => dt
  | n + 1 => addDay (addDays dt n)

theorem addDays_valid {dt : Datetime} (hv : Valid dt) (n : Nat) : Valid (addDays dt n) := by
  induction n with
  | zero => exact hv
  | succ n ih => exact addDay_valid ih

theorem toSec_addDays {dt : Datetime} (hv : Valid dt) (n : Nat) :
    toSec (addDays dt n) = toSec dt + n * 86400 := by
  induction n with
  | zero => simp [addDays]
  | succ n ih =>
    have := toSec_addDay (addDays_valid hv n)
    simp only [addDays, this, ih]
    ring

/-- One hour forward; `dt + timedelta(hours=1)`. -/
def addHour (dt : Datetime) : Datetime :=
  if dt.hour + 1 < 24 then { dt with hour := dt.hour + 1 }
  else addDay { dt with hour := 0 }

theorem addHour_valid {dt : Datetime} (hv : Valid dt) : Valid (addHour dt) := by
  obtain ⟨h1, h2, h3, h4, h5, h6, h7⟩ := hv
  unfold addHour
  split
  · unfold Valid
    dsimp only
    omega
  · refine addDay_valid ?_
    unfold Valid
    dsimp only
    omega

theorem toSec_addHour {dt : Datetime} (hv : Valid dt) :
    toSec (addHour dt) = toSec dt + 3600 := by
  obtain ⟨h1, h2, h3, h4, h5, h6, h7⟩ := hv
  unfold addHour
  split
  · simp only [toSec, toOrdinal]
    omega
  · rename_i hh
    have h23 : dt.hour = 23 := by omega
    have hz : Valid { dt with hour := 0 } := by
      unfold Valid
      dsimp only
      omega
    rw [toSec_addDay hz]
    simp only [toSec, toOrdinal]
    omega

/-- `_bump_month` (scheduler.py lines 61-83): advance one month, clamping the
day to the last day of the target month (`dt.replace(year, month, day)`). -/
def bump_month (dt : Datetime) : Datetime :=
  let month0 := dt.month + 1
  let year := if month0 > 12 then dt.year + 1 else dt.year
  let month := if month0 > 12 then 1 else month0
  let day := min dt.day ((last_day_lookup year).getD (month - 1) 31)
  { dt with year := year, month := month, day := day }

theorem bump_month_eq (dt : Datetime) :
    bump_month dt =
      if dt.month + 1 > 12 then
        { dt with year := dt.year + 1, month := 1,
                  day := min dt.day (monthLen (dt.year + 1) 1) }
      else
        { dt with month := dt.month + 1,
                  day := min dt.day (monthLen dt.year (dt.month + 1)) } := by
  by_cases hm : dt.month + 1 > 12 <;> simp [bump_month, monthLen, hm]

theorem bump_month_valid {dt : Datetime} (hv : Valid dt) : Valid (bump_month dt) := by
  obtain ⟨h1, h2, h3, h4, h5, h6, h7⟩ := hv
  rw [bump_month_eq]
  split
  · have hp := monthLen_pos (dt.year + 1) 1 le_rfl (by omega)
    unfold Valid
    dsimp only
    omega
  · rename_i hm
    have hp := monthLen_pos dt.year (dt.month + 1) (by omega) (by omega)
    unfold Valid
    dsimp only
    omega

theorem toSec_bump_month {dt : Datetime} (hv : Valid dt) :
    toSec dt < toSec (bump_month dt) := by
  obtain ⟨h1, h2, h3, h4, h5, h6, h7⟩ := hv
  have hord : toOrdinal dt < toOrdinal (bump_month dt) := by
    rw [bump_month_eq]
    unfold toOrdinal
    split
    · rename_i hm
      have h12 : dt.month = 12 := by omega
      have hml : monthLen dt.year 12 = 31 := by simp [monthLen, last_day_lookup]
      have hlast := daysBeforeMonth_last dt.year
      have hone : daysBeforeMonth (dt.year + 1) 1 = 0 := daysBeforeMonth_one _
      have hy : daysBeforeYear (dt.year + 1) = daysBeforeYear dt.year + daysInYear dt.year := rfl
      have hp := monthLen_pos (dt.year + 1) 1 le_rfl (by omega)
      dsimp only
      rw [hone, hy]
      rw [h12] at h4 ⊢
      omega
    · rename_i hm
      have hlen := daysBeforeMonth_succ dt.year dt.month h1 h2
      have hp := monthLen_pos dt.year (dt.month + 1) (by omega) (by omega)
      dsimp only
      omega
  have e1 : (bump_month dt).hour = dt.hour := by rw [bump_month_eq]; split <;> rfl
  have e2 : (bump_month dt).minute = dt.minute := by rw [bump_month_eq]; split <;> rfl
  have e3 : (bump_month dt).second = dt.second := by rw [bump_month_eq]; split <;> rfl
  unfold toSec
  rw [e1, e2, e3]
  have := Nat.mul_le_mul_right 86400 (Nat.succ_le_of_lt hord)
  omega

/-- The five supported recurrence names (`RECURRENCE_CHOICES`, scheduler.py
line 21). -/
def RECURRENCE_CHOICES : List String :=
  ["hourly", "daily", "weekly", "every_4_days", "monthly"]

/-- `_increment` (scheduler.py lines 86-97): one recurrence step.  `none`
models the `ValueError` raised for a recurrence outside the enumeration; the
`timedelta` additions are embedded as the calendar steps proved above. -/
def increment (dt : Datetime) (recurrence : String) : Option Datetime :=
  if recurrence = "hourly" then some (addHour dt)
  else if recurrence = "daily" then some (addDay dt)
  else if recurrence = "weekly" then some (addDays dt 7)
  else if recurrence = "every_4_days" then some (addDays dt 4)
  else if recurrence = "monthly" then some (bump_month dt)
  else none

theorem increment_spec {dt d' : Datetime} {r : String} (hv : Valid dt)
    (h : increment dt r = some d') : Valid d' ∧ toSec dt < toSec d' := by
  unfold increment at h
  split at h
  · cases h
    exact ⟨addHour_valid hv, by rw [toSec_addHour hv]; omega⟩
  · split at h
    · cases h
      exact ⟨addDay_valid hv, by rw [toSec_addDay hv]; omega⟩
    · split at h
      · cases h
        exact ⟨addDays_valid hv 7, by rw [toSec_addDays hv 7]; omega⟩
      · split at h
        · cases h
          exact ⟨addDays_valid hv 4, by rw [toSec_addDays hv 4]; omega⟩
        · split at h
          · cases h
            exact ⟨bump_month_valid hv, toSec_bump_month hv⟩
          · cases h

theorem increment_total {dt : Datetime} {r : String} (hr : r ∈ RECURRENCE_CHOICES) :
    ∃ d', increment dt r = some d' := by
  unfold RECURRENCE_CHOICES at hr
  unfold increment
  fin_cases hr <;> simp

/-- The `while candidate <= reference` / `while next_dt <= reference` loops of
`_first_run_dt` and `compute_next_run` (scheduler.py lines 110-111 and
127-128): repeatedly apply the recurrence step until the value is strictly
after `reference`.  The `Valid` argument reflects that Python only ever runs
this loop on (valid) `datetime` values; it drives termination. -/
def advance (recurrence : String) (reference : Datetime) (next : Datetime)
    (hv : Valid next) : Option Datetime :=
  if toSec next ≤ toSec reference then
    match h : increment next recurrence with
    | some next' => advance recurrence reference next' (increment_spec hv h).1
    | none => none
  else some next
termination_by toSec reference + 1 - toSec next
decreasing_by
  have := (increment_spec hv h).2
  omega

/-- `k`-fold application of the single recurrence step (for stating that
results are reached by stepping, with no steps skipped or repeated). -/
def stepN (recurrence : String) : Nat → Datetime → Option Datetime
  | 0, d => some d
  | k + 1, d => (increment d recurrence).bind (stepN recurrence k)

theorem advance_gt {r : String} {ref : Datetime} {next res : Datetime} {hv : Valid next}
    (h : advance r ref next hv = some res) : toSec ref < toSec res := by
  induction next, hv using advance.induct r ref with
  | case1 next hv hle next' hinc ih =>
    rw [advance, if_pos hle] at h
    split at h
    · rename_i x hx
      rw [hinc] at hx
      cases hx
      exact ih h
    · cases h
  | case2 next hv hle hinc =>
    rw [advance, if_pos hle] at h
    split at h
    · rename_i x hx
      rw [hinc] at hx
      cases hx
    · cases h
  | case3 next hv hle =>
    rw [advance, if_neg hle] at h
    cases h
    omega

theorem advance_valid {r : String} {ref : Datetime} {next res : Datetime} {hv : Valid next}
    (h : advance r ref next hv = some res) : Valid res := by
  induction next, hv using advance.induct r ref with
  | case1 next hv hle next' hinc ih =>
    rw [advance, if_pos hle] at h
    split at h
    · rename_i x hx
      rw [hinc] at hx
      cases hx
      exact ih h
    · cases h
  | case2 next hv hle hinc =>
    rw [advance, if_pos hle] at h
    split at h
    · rename_i x hx
      rw [hinc] at hx
      cases hx
    · cases h
  | case3 next hv hle =>
    rw [advance, if_neg hle] at h
    cases h
    exact hv

theorem advance_total {r : String} {ref : Datetime} {next : Datetime} (hv : Valid next)
    (hr : r ∈ RECURRENCE_CHOICES) : ∃ res, advance r ref next hv = some res := by
  induction next, hv using advance.induct r ref with
  | case1 next hv hle next' hinc ih =>
    rw [advance, if_pos hle]
    obtain ⟨res, hres⟩ := ih
    refine ⟨res, ?_⟩
    split
    · rename_i x hx
      rw [hinc] at hx
      cases hx
      exact hres
    · rename_i hx
      rw [hinc] at hx
      cases hx
  | case2 next hv hle hinc =>
    obtain ⟨d', hd⟩ := @increment_total next r hr
    rw [hd] at hinc
    cases hinc
  | case3 next hv hle =>
    exact ⟨next, by rw [advance, if_neg hle]⟩

theorem advance_chain {r : String} {ref : Datetime} {next res : Datetime} {hv : Valid next}
    (h : advance r ref next hv = some res) :
    ∃ k, stepN r k next = some res ∧ (toSec next ≤ toSec ref → 1 ≤ k) ∧
      ∀ j, j < k → ∃ dj, stepN r j next = some dj ∧ toSec dj ≤ toSec ref := by
  induction next, hv using advance.induct r ref with
  | case1 next hv hle next' hinc ih =>
    rw [advance, if_pos hle] at h
    split at h
    · rename_i x hx
      rw [hinc] at hx
      cases hx
      obtain ⟨k, hs, _, hall⟩ := ih h
      refine ⟨k + 1, ?_, fun _ => by omega, ?_⟩
      · simp only [stepN, hinc, Option.bind_some]
        exact hs
      · intro j hj
        cases j with
        | zero => exact ⟨next, rfl, hle⟩
        | succ j' =>
          obtain ⟨dj, hdj, hdjle⟩ := hall j' (by omega)
          exact ⟨dj, by simp only [stepN, hinc, Option.bind_some]; exact hdj, hdjle⟩
    · cases h
  | case2 next hv hle hinc =>
    rw [advance, if_pos hle] at h
    split at h
    · rename_i x hx
      rw [hinc] at hx
      cases hx
    · cases h
  | case3 next hv hle =>
    rw [advance, if_neg hle] at h
    cases h
    exact ⟨0, rfl, fun hc => absurd hc hle, fun j hj => absurd hj (by omega)⟩

/-- A calendar date, mirroring Python `datetime.date`. -/
structure Date where
  year : Nat
  month : Nat
  day : Nat
deriving Repr, DecidableEq

/-- A wall-clock time anchor, mirroring Python `datetime.time` as produced by
`time(hour=..., minute=...)` (seconds always zero). -/
structure TimeOfDay where
  hour : Nat
  minute : Nat
deriving Repr, DecidableEq

def ValidDate (d : Date) : Prop :=
  1 ≤ d.month ∧ d.month ≤ 12 ∧ 1 ≤ d.day ∧ d.day ≤ monthLen d.year d.month

instance (d : Date) : Decidable (ValidDate d) := by unfold ValidDate; infer_instance

def ValidTime (t : TimeOfDay) : Prop := t.hour < 24 ∧ t.minute < 60

instance (t : TimeOfDay) : Decidable (ValidTime t) := by unfold ValidTime; infer_instance

/-- `datetime.combine(start, tod)`: merge a date with a time-of-day. -/
def combine (d : Date) (t : TimeOfDay) : Datetime :=
  ⟨d.year, d.month, d.day, t.hour, t.minute, 0⟩

theorem combine_valid {d : Date} {t : TimeOfDay} (hd : ValidDate d) (ht : ValidTime t) :
    Valid (combine d t) := by
  obtain ⟨h1, h2, h3, h4⟩ := hd
  obtain ⟨h5, h6⟩ := ht
  exact ⟨h1, h2, h3, h4, h5, h6, by show (0:Nat) < 60; omega⟩

def digitVal (c : Char) : Nat := c.toNat - 48

def natOfDigits (l : List Char) : Nat := l.foldl (fun a c => a * 10 + digitVal c) 0

/-- Python `int(string)` restricted to the forms that occur here: an optional
sign followed by decimal digits (anything else raises, modelled as `none`). -/
def str_to_int (s : String) : Option Int :=
  match s.toList with
  | [] => none
  | '-' :: rest =>
      if rest ≠ [] ∧ rest.all Char.isDigit then some (-(natOfDigits rest : Int)) else none
  | '+' :: rest =>
      if rest ≠ [] ∧ rest.all Char.isDigit then some (natOfDigits rest : Int) else none
  | l => if l.all Char.isDigit then some (natOfDigits l : Int) else none

/-- `DEFAULT_TIME_OF_DAY` (scheduler.py line 22). -/
def DEFAULT_TIME_OF_DAY : String := "07:00"

/-- The body of `_parse_time_str`'s `try` block (scheduler.py lines 32-36):
split on `:`, take hour from part 0, minute from part 1 when present, and let
`time(...)` validate the ranges; `none` models any raised exception. -/
def parse_time_core (value : String) : Option TimeOfDay :=
  let parts := value.splitOn ":"
  match str_to_int (parts.getD 0 ""),
        (if parts.length > 1 then str_to_int (parts.getD 1 "") else some 0) with
  | some h, some m =>
      if 0 ≤ h ∧ h ≤ 23 ∧ 0 ≤ m ∧ m ≤ 59 then some ⟨h.toNat, m.toNat⟩ else none
  | _, _ => none

/-- `_parse_time_str` (scheduler.py lines 31-38): fall back to `time(7, 0)`
when anything in the `try` block raises. -/
def parse_time_str (value : String) : TimeOfDay :=
  (parse_time_core value).getD ⟨7, 0⟩

theorem parse_time_core_valid {v : String} {t : TimeOfDay}
    (h : parse_time_core v = some t) : ValidTime t := by
  simp only [parse_time_core] at h
  split at h
  · rename_i h' m' heq1 heq2
    split at h
    · rename_i hr
      cases h
      unfold ValidTime
      dsimp only
      omega
    · cases h
  · cases h

theorem parse_time_str_valid (v : String) : ValidTime (parse_time_str v) := by
  unfold parse_time_str
  cases hc : parse_time_core v with
  | none => simp only [Option.getD_none]; decide
  | some t => simp only [Option.getD_some]; exact parse_time_core_valid hc

def val2 (a b : Char) : Nat := digitVal a * 10 + digitVal b

def val4 (a b c d : Char) : Nat :=
  ((digitVal a * 10 + digitVal b) * 10 + digitVal c) * 10 + digitVal d

/-- The validation Python's `date(year, month, day)` constructor performs
(year 1-9999, month 1-12, day within the month). -/
def mkDate (y mo d : Nat) : Option Date :=
  if 1 ≤ y ∧ y ≤ 9999 ∧ 1 ≤ mo ∧ mo ≤ 12 ∧ 1 ≤ d ∧ d ≤ monthLen y mo then
    some ⟨y, mo, d⟩
  else none

/-- The body of `_parse_date_str`'s `try` block:
`datetime.strptime(value, "%Y-%m-%d").date()`.  `%Y` matches exactly four
digits, `%m` and `%d` one or two digits, the whole string must be consumed,
and the constructed `date` validates the ranges; `none` models a raise. -/
def parse_date_core (s : String) : Option Date :=
  match s.toList with
  | [y1, y2, y3, y4, '-', m1, m2, '-', d1, d2] =>
      if [y1, y2, y3, y4, m1, m2, d1, d2].all Char.isDigit then
        mkDate (val4 y1 y2 y3 y4) (val2 m1 m2) (val2 d1 d2)
      else none
  | [y1, y2, y3, y4, '-', m1, '-', d1, d2] =>
      if [y1, y2, y3, y4, m1, d1, d2].all Char.isDigit then
        mkDate (val4 y1 y2 y3 y4) (digitVal m1) (val2 d1 d2)
      else none
  | [y1, y2, y3, y4, '-', m1, m2, '-', d1] =>
      if [y1, y2, y3, y4, m1, m2, d1].all Char.isDigit then
        mkDate (val4 y1 y2 y3 y4) (val2 m1 m2) (digitVal d1)
      else none
  | [y1, y2, y3, y4, '-', m1, '-', d1] =>
      if [y1, y2, y3, y4, m1, d1].all Char.isDigit then
        mkDate (val4 y1 y2 y3 y4) (digitVal m1) (digitVal d1)
      else none
  | _ => none

/-- `_parse_date_str` (scheduler.py lines 41-45): fall back to
`datetime.now().date()` when parsing raises; `now` is the ambient clock. -/
def parse_date_str (value : String) (now : Datetime) : Date :=
  (parse_date_core value).getD ⟨now.year, now.month, now.day⟩

theorem mkDate_valid {y mo d : Nat} {dd : Date} (h : mkDate y mo d = some dd) :
    ValidDate dd := by
  unfold mkDate at h
  split at h
  · rename_i hr
    cases h
    exact ⟨hr.2.2.1, hr.2.2.2.1, hr.2.2.2.2.1, hr.2.2.2.2.2⟩
  · cases h

theorem parse_date_core_valid {s : String} {d : Date}
    (h : parse_date_core s = some d) : ValidDate d := by
  unfold parse_date_core at h
  split at h <;> first
    | cases h
    | (split at h
       · exact mkDate_valid h
       · cases h)

theorem parse_date_str_valid (v : String) {now : Datetime} (hnow : Valid now) :
    ValidDate (parse_date_str v now) := by
  unfold parse_date_str
  cases hc : parse_date_core v with
  | none =>
    obtain ⟨h1, h2, h3, h4, _, _, _⟩ := hnow
    simp only [Option.getD_none]
    exact ⟨h1, h2, h3, h4⟩
  | some d => simp only [Option.getD_some]; exact parse_date_core_valid hc

/-- The validation Python's `datetime(...)` constructor performs. -/
def mkDatetime (y mo d h mi s : Nat) : Option Datetime :=
  if 1 ≤ y ∧ y ≤ 9999 ∧ 1 ≤ mo ∧ mo ≤ 12 ∧ 1 ≤ d ∧ d ≤ monthLen y mo ∧
      h < 24 ∧ mi < 60 ∧ s < 60 then
    some ⟨y, mo, d, h, mi, s⟩
  else none

/-- `datetime.fromisoformat` on the formats this program produces or stores:
`YYYY-MM-DD`, `YYYY-MM-DD HH:MM` and `YYYY-MM-DD HH:MM:SS` (any single
date-time separator character), with constructor validation. -/
def parse_iso (s : String) : Option Datetime :=
  match s.toList with
  | [y1, y2, y3, y4, '-', m1, m2, '-', d1, d2] =>
      if [y1, y2, y3, y4, m1, m2, d1, d2].all Char.isDigit then
        mkDatetime (val4 y1 y2 y3 y4) (val2 m1 m2) (val2 d1 d2) 0 0 0
      else none
  | [y1, y2, y3, y4, '-', m1, m2, '-', d1, d2, _, h1, h2, ':', n1, n2] =>
      if [y1, y2, y3, y4, m1, m2, d1, d2, h1, h2, n1, n2].all Char.isDigit then
        mkDatetime (val4 y1 y2 y3 y4) (val2 m1 m2) (val2 d1 d2) (val2 h1 h2) (val2 n1 n2) 0
      else none
  | [y1, y2, y3, y4, '-', m1, m2, '-', d1, d2, _, h1, h2, ':', n1, n2, ':', s1, s2] =>
      if [y1, y2, y3, y4, m1, m2, d1, d2, h1, h2, n1, n2, s1, s2].all Char.isDigit then
        mkDatetime (val4 y1 y2 y3 y4) (val2 m1 m2) (val2 d1 d2) (val2 h1 h2) (val2 n1 n2)
          (val2 s1 s2)
      else none
  | _ => none

/-- `_parse_dt` (scheduler.py lines 48-54): `None` and the empty string give
`None`; a string `datetime.fromisoformat` rejects also gives `None`. -/
def parse_dt (value : Option String) : Option Datetime :=
  match value with
  | none => none
  | some s => if s = "" then none else parse_iso s

theorem mkDatetime_valid {y mo d h mi s : Nat} {dt : Datetime}
    (h' : mkDatetime y mo d h mi s = some dt) : Valid dt := by
  unfold mkDatetime at h'
  split at h'
  · rename_i hr
    cases h'
    exact ⟨hr.2.2.1, hr.2.2.2.1, hr.2.2.2.2.1, hr.2.2.2.2.2.1, hr.2.2.2.2.2.2.1,
      hr.2.2.2.2.2.2.2.1, hr.2.2.2.2.2.2.2.2⟩
  · cases h'

theorem parse_iso_valid {s : String} {dt : Datetime} (h : parse_iso s = some dt) :
    Valid dt := by
  unfold parse_iso at h
  split at h <;> first
    | cases h
    | (split at h
       · exact mkDatetime_valid h
       · cases h)

theorem parse_dt_valid {v : Option String} {dt : Datetime} (h : parse_dt v = some dt) :
    Valid dt := by
  unfold parse_dt at h
  split at h
  · cases h
  · split at h
    · cases h
    · exact parse_iso_valid h

def digitChar (n : Nat) : Char := Char.ofNat (48 + n % 10)

def pad2 (n : Nat) : String := String.mk [digitChar (n / 10), digitChar n]

def pad4 (n : Nat) : String :=
  String.mk [digitChar (n / 1000), digitChar (n / 100), digitChar (n / 10), digitChar n]

/-- `_format_dt` (scheduler.py lines 57-58): `dt.strftime("%Y-%m-%d %H:%M:%S")`
with the zero-padded field widths strftime produces for valid datetimes. -/
def format_dt (dt : Datetime) : String :=
  pad4 dt.year ++ "-" ++ pad2 dt.month ++ "-" ++ pad2 dt.day ++ " " ++
    pad2 dt.hour ++ ":" ++ pad2 dt.minute ++ ":" ++ pad2 dt.second

/-- `_first_run_dt` (scheduler.py lines 100-112): anchor at `start_date` +
`time_of_day` (with fallbacks) and step until strictly after `reference`.
`now` is the ambient `datetime.now()` clock used by `_parse_date_str`'s
fallback. -/
def first_run_dt (recurrence : String) (time_of_day : String) (start_date : String)
    (reference : Datetime) (now : Datetime) (hnow : Valid now) : Option Datetime :=
  advance recurrence reference
    (combine (parse_date_str start_date now)
      (parse_time_str (if time_of_day = "" then DEFAULT_TIME_OF_DAY else time_of_day)))
    (combine_valid (parse_date_str_valid start_date hnow) (parse_time_str_valid _))

theorem first_run_dt_valid {r tod sd : String} {reference now fr : Datetime}
    {hnow : Valid now} (h : first_run_dt r tod sd reference now hnow = some fr) :
    Valid fr := advance_valid h

/-- `compute_next_run` (scheduler.py lines 115-129): parse the stored anchor,
fall back to `_first_run_dt` when absent or unparseable, then step until
strictly after `reference`.  `none` models the `ValueError` `_increment`
raises for an unsupported recurrence. -/
def compute_next_run (current_next : Option String) (recurrence : String)
    (time_of_day : String) (start_date : String) (reference : Datetime)
    (now : Datetime) (hnow : Valid now) : Option Datetime :=
  match h : parse_dt current_next with
  | some n => advance recurrence reference n (parse_dt_valid h)
  | none =>
    match h2 : first_run_dt recurrence time_of_day start_date reference now hnow with
    | some fr => advance recurrence reference fr (first_run_dt_valid h2)
    | none => none

/-- One row of the `schedules` table (scheduler.py lines 147-169). -/
structure Schedule where
  id : Nat
  key : String
  name : String
  task : String
  recurrence : String
  time_of_day : String
  start_date : String
  run_for_days_ago : Nat
  next_run : Option String
  last_run : Option String
  last_status : Option String
  last_message : Option String
  last_log_path : Option String
  enabled : Bool
  created_at : String
deriving Repr, DecidableEq

/-- The `schedules` table plus its AUTOINCREMENT counter.  `rows` is kept in
rowid (insertion) order, the order an unordered SELECT iterates. -/
structure ScheduleStore where
  rows : List Schedule
  nextId : Nat
deriving Repr, DecidableEq

/-- Well-formedness the SQLite schema and the store's own writes maintain:
`key` is UNIQUE, `id` is an AUTOINCREMENT primary key starting at 1, and every
stored recurrence passed `upsert_schedule`'s validation. -/
def ScheduleStore.WF (st : ScheduleStore) : Prop :=
  (st.rows.map Schedule.key).Nodup ∧ (st.rows.map Schedule.id).Nodup ∧
    (∀ s ∈ st.rows, 1 ≤ s.id ∧ s.id < st.nextId ∧ s.recurrence ∈ RECURRENCE_CHOICES) ∧
    1 ≤ st.nextId

instance (st : ScheduleStore) : Decidable st.WF := by
  unfold ScheduleStore.WF; infer_instance

/-- `ScheduleStore.get_by_key` (scheduler.py lines 226-229). -/
def ScheduleStore.get_by_key (st : ScheduleStore) (key : String) : Option Schedule :=
  st.rows.find? (fun row => row.key == key)

/-- `ScheduleStore.get` (scheduler.py lines 231-234). -/
def ScheduleStore.get (st : ScheduleStore) (schedule_id : Nat) : Option Schedule :=
  st.rows.find? (fun row => row.id == schedule_id)

/-- `ScheduleStore.due_schedules` (scheduler.py lines 247-259): SELECT the
enabled rows with a non-NULL `next_run`, then keep those whose `next_run`
parses and is at or before `reference`. -/
def ScheduleStore.due_schedules (st : ScheduleStore) (reference : Datetime) : List Schedule :=
  (st.rows.filter (fun row => row.enabled && row.next_run.isSome)).filter
    (fun row =>
      match parse_dt row.next_run with
      | some next_dt => decide (toSec next_dt ≤ toSec reference)
      | none => false)

/-- The row-updating function `upsert_schedule`'s ON CONFLICT clause applies. -/
def upsertUpd (key name task r tod sd : String) (rfd : Nat) (enabled : Bool)
    (next_str : String) (row : Schedule) : Schedule :=
  if row.key == key then
    { row with name := name, task := task, recurrence := r,
               time_of_day := tod, start_date := sd,
               run_for_days_ago := rfd, next_run := some next_str,
               enabled := enabled }
  else row

/-- `ScheduleStore.upsert_schedule` (scheduler.py lines 174-219): validate the
recurrence (`.error` models the raised `ValueError`), compute a fresh
`next_run` with reference `now`, then INSERT or, on a `key` conflict, UPDATE
everything except `id`, `created_at` and the `last_*` history columns;
finally return `get_by_key(key)`. -/
def ScheduleStore.upsert_schedule (st : ScheduleStore) (key name task recurrence : String)
    (time_of_day start_date : String) (run_for_days_ago : Int) (enabled : Bool)
    (now : Datetime) (hnow : Valid now) : Except String (ScheduleStore × Option Schedule) :=
  if recurrence ∈ RECURRENCE_CHOICES then
    match compute_next_run none recurrence time_of_day start_date now now hnow with
    | none => .error "Unsupported recurrence"
    | some next_run =>
      let rfd := run_for_days_ago.toNat
      let next_str := format_dt next_run
      match st.get_by_key key with
      | some _ =>
        let st' : ScheduleStore :=
          ⟨st.rows.map (upsertUpd key name task recurrence time_of_day start_date
            rfd enabled next_str), st.nextId⟩
        .ok (st', st'.get_by_key key)
      | none =>
        let row : Schedule :=
          { id := st.nextId, key := key, name := name, task := task,
            recurrence := recurrence, time_of_day := time_of_day,
            start_date := start_date, run_for_days_ago := rfd,
            next_run := some next_str, last_run := none, last_status := none,
            last_message := none, last_log_path := none, enabled := enabled,
            created_at := format_dt now }
        let st' : ScheduleStore := ⟨st.rows ++ [row], st.nextId + 1⟩
        .ok (st', st'.get_by_key key)
  else .error ("recurrence must be one of " ++ String.intercalate ", " RECURRENCE_CHOICES)

/-- The row update `mark_completed`'s UPDATE statement applies (scheduler.py
lines 307-322); `job` is the row fetched beforehand, whose `last_log_path`
backs up a falsy `log_path` argument. -/
def markUpd (schedule_id : Nat) (success : Bool) (message : Option String)
    (log_path : Option String) (now : Datetime) (next_str : String) (job : Schedule)
    (row : Schedule) : Schedule :=
  if row.id == schedule_id then
    { row with last_run := some (format_dt now),
               last_status := some (if success then "success" else "failed"),
               last_message := some (message.getD ""),
               last_log_path :=
                 (match log_path with
                  | some p => if p = "" then job.last_log_path else some p
                  | none => job.last_log_path),
               next_run := some next_str }
  else row

/-- `ScheduleStore.mark_completed` (scheduler.py lines 289-323): look up the
row (absent id is a silent no-op returning `None`), recompute `next_run`
anchored on the stored `next_run` with reference `now`, and record the
outcome.  `message or ""` and `log_path or job.get("last_log_path")` follow
Python truthiness (empty strings fall back).  `.error` models the
`ValueError` `compute_next_run` would raise for a corrupt recurrence. -/
def ScheduleStore.mark_completed (st : ScheduleStore) (schedule_id : Nat) (success : Bool)
    (message : Option String) (log_path : Option String) (now : Datetime)
    (hnow : Valid now) : Except String (ScheduleStore × Option String) :=
  match st.get schedule_id with
  | none => .ok (st, none)
  | some job =>
    match compute_next_run job.next_run job.recurrence job.time_of_day job.start_date
        now now hnow with
    | none => .error "Unsupported recurrence"
    | some next_dt =>
      let next_str := format_dt next_dt
      let st' : ScheduleStore :=
        ⟨st.rows.map (markUpd schedule_id success message log_path now next_str job),
          st.nextId⟩
      .ok (st', some next_str)

/-- The `SchedulerService` state the poll loop consults: the shared store and
`_active_schedule_id` (scheduler.py line 348). -/
structure ServiceState where
  store : ScheduleStore
  active : Option Nat
deriving Repr, DecidableEq

/-- Outcome of one invocation of the host's `on_job_due` callback: returned
truthy, returned falsy, or raised an exception with the given text. -/
inductive CallbackResult where
  | accepted
  | rejected
  | raised (msg : String)
deriving Repr, DecidableEq

/-- Observable effects of one iteration of `SchedulerService._run_loop`
(scheduler.py lines 372-396): the state afterwards, the ids handed to
`on_job_due` this tick, the messages logged, and whether an exception other
than the callback's escaped the iteration (which would kill the loop). -/
structure TickResult where
  state : ServiceState
  dispatched : List Nat
  logs : List String
  escaped : Bool
deriving Repr, DecidableEq

/-- Python truthiness of `self._active_schedule_id` (`if self._active_schedule_id:`). -/
def truthy : Option Nat → Bool
  | none => false
  | some i => i != 0

/-- One iteration of `SchedulerService._run_loop` (scheduler.py lines
373-396), between two waits on the poll interval.  `can_start` is the host
predicate (`none` when the host supplied no predicate), `cb` the host's
`on_job_due`. -/
def run_tick (s : ServiceState) (can_start : Option Bool)
    (cb : Schedule → CallbackResult) (now : Datetime) (hnow : Valid now) : TickResult :=
  if truthy s.active then ⟨s, [], [], false⟩
  else if can_start = some false then ⟨s, [], [], false⟩
  else
    match s.store.due_schedules now with
    | [] => ⟨s, [], [], false⟩
    | job :: _ =>
      match cb job with
      | .accepted => ⟨⟨s.store, some job.id⟩, [job.id], [], false⟩
      | .rejected => ⟨⟨s.store, none⟩, [job.id], [], false⟩
      | .raised msg =>
        let logmsg := "Failed to start scheduled job " ++ job.name ++ ": " ++ msg
        match s.store.mark_completed job.id false (some ("Failed to start: " ++ msg))
            none now hnow with
        | .ok (st', _) => ⟨⟨st', none⟩, [job.id], [logmsg], false⟩
        | .error _ => ⟨⟨s.store, none⟩, [job.id], [logmsg], true⟩

/-- `SchedulerService.mark_run_complete` (scheduler.py lines 362-367): clear
`_active_schedule_id` when it matches, then delegate to the store's
`mark_completed`. -/
def mark_run_complete (s : ServiceState) (schedule_id : Nat) (success : Bool)
    (message : Option String) (log_path : Option String) (now : Datetime)
    (hnow : Valid now) : ServiceState × Except String (Option String) :=
  let active' := if s.active = some schedule_id then none else s.active
  match s.store.mark_completed schedule_id success message log_path now hnow with
  | .ok (st', r) => (⟨st', active'⟩, .ok r)
  | .error e => (⟨s.store, active'⟩, .error e)

theorem find?_map_comm {α : Type} (f : α → α) (p : α → Bool) (l : List α)
    (hf : ∀ a, p (f a) = p a) : (l.map f).find? p = (l.find? p).map f := by
  induction l with
  | nil => rfl
  | cons a t ih =>
    cases hp : p a with
    | true =>
      rw [List.map_cons, List.find?_cons_of_pos _ (by rw [hf a]; exact hp),
        List.find?_cons_of_pos _ hp, Option.map_some']
    | false =>
      rw [List.map_cons, List.find?_cons_of_neg _ (by rw [hf a, hp]; exact Bool.false_ne_true),
        List.find?_cons_of_neg _ (by rw [hp]; exact Bool.false_ne_true), ih]

theorem filter_map_comm {α : Type} (f : α → α) (p : α → Bool) (l : List α)
    (hf : ∀ a, p (f a) = p a) : (l.map f).filter p = (l.filter p).map f := by
  induction l with
  | nil => rfl
  | cons a t ih =>
    cases hp : p a with
    | true => simp [List.filter_cons, hf a, hp, ih]
    | false => simp [List.filter_cons, hf a, hp, ih]

theorem find?_append_none {α : Type} {p : α → Bool} {l1 : List α} (l2 : List α)
    (h : l1.find? p = none) : (l1 ++ l2).find? p = l2.find? p := by
  induction l1 with
  | nil => rfl
  | cons a t ih =>
    rw [List.find?_eq_none] at h
    have ha : ¬ p a = true := h a (List.mem_cons_self a t)
    rw [List.cons_append, List.find?_cons_of_neg _ ha]
    exact ih (List.find?_eq_none.mpr fun x hx => h x (List.mem_cons_of_mem a hx))

theorem filter_key_len_le_one {l : List Schedule} {k : String}
    (h : (l.map Schedule.key).Nodup) :
    (l.filter (fun r => r.key == k)).length ≤ 1 := by
  induction l with
  | nil => simp
  | cons a t ih =>
    rw [List.map_cons, List.nodup_cons] at h
    rw [List.filter_cons]
    cases ha : (a.key == k) with
    | false => exact ih h.2
    | true =>
      have hak : a.key = k := by simpa using ha
      have ht : t.filter (fun r => r.key == k) = [] := by
        rw [List.filter_eq_nil_iff]
        intro b hb hbk
        have hbk2 : b.key = k := by simpa using hbk
        exact h.1 (hak ▸ hbk2 ▸ List.mem_map_of_mem Schedule.key hb)
      simp [ht]

theorem find?_id_of_mem {l : List Schedule} {j : Schedule}
    (hn : (l.map Schedule.id).Nodup) (hm : j ∈ l) :
    l.find? (fun r => r.id == j.id) = some j := by
  induction l with
  | nil => cases hm
  | cons a t ih =>
    rw [List.map_cons, List.nodup_cons] at hn
    rcases List.mem_cons.mp hm with h | h
    · subst h
      exact List.find?_cons_of_pos _ (by simp)
    · have haj : a.id ≠ j.id := by
        intro he
        exact hn.1 (he ▸ List.mem_map_of_mem Schedule.id h)
      rw [List.find?_cons_of_neg _ (by simpa using haj)]
      exact ih hn.2 h

theorem compute_next_run_anchor {cur : Option String} {n : Datetime} {r tod sd : String}
    {reference now : Datetime} {hnow : Valid now} (hp : parse_dt cur = some n) :
    compute_next_run cur r tod sd reference now hnow =
      advance r reference n (parse_dt_valid hp) := by
  unfold compute_next_run
  split
  · rename_i n' hn'
    rw [hp] at hn'
    cases hn'
    rfl
  · rename_i hn'
    rw [hp] at hn'
    cases hn'

theorem compute_next_run_first {cur : Option String} {r tod sd : String}
    {reference now fr : Datetime} {hnow : Valid now} (hp : parse_dt cur = none)
    (hf : first_run_dt r tod sd reference now hnow = some fr) :
    compute_next_run cur r tod sd reference now hnow =
      advance r reference fr (first_run_dt_valid hf) := by
  unfold compute_next_run
  split
  · rename_i n' hn'
    rw [hp] at hn'
    cases hn'
  · split
    · rename_i fr' hf'
      rw [hf] at hf'
      cases hf'
      rfl
    · rename_i hf'
      rw [hf] at hf'
      cases hf'

theorem first_run_dt_total {r tod sd : String} {reference now : Datetime} (hnow : Valid now)
    (hr : r ∈ RECURRENCE_CHOICES) :
    ∃ fr, first_run_dt r tod sd reference now hnow = some fr := by
  unfold first_run_dt
  exact advance_total _ hr

theorem compute_next_run_total {cur : Option String} {r tod sd : String}
    {reference now : Datetime} (hnow : Valid now) (hr : r ∈ RECURRENCE_CHOICES) :
    ∃ d, compute_next_run cur r tod sd reference now hnow = some d ∧
      toSec reference < toSec d := by
  cases hp : parse_dt cur with
  | some n =>
    obtain ⟨d, hd⟩ := @advance_total r reference n (parse_dt_valid hp) hr
    exact ⟨d, by rw [compute_next_run_anchor hp]; exact hd, advance_gt hd⟩
  | none =>
    obtain ⟨fr, hfr⟩ := first_run_dt_total hnow hr
    obtain ⟨d, hd⟩ := @advance_total r reference fr (first_run_dt_valid hfr) hr
    exact ⟨d, by rw [compute_next_run_first hp hfr]; exact hd, advance_gt hd⟩

theorem parse_dt_isSome {v : Option String} {d : Datetime} (h : parse_dt v = some d) :
    v.isSome := by
  cases v with
  | none => cases h
  | some s => rfl

theorem isLeap_iff (y : Nat) :
    isLeap y = true ↔ (y % 4 = 0 ∧ (y % 100 ≠ 0 ∨ y % 400 = 0)) := by
  unfold isLeap
  simp

theorem monthLen_feb (y : Nat) : monthLen y 2 = if isLeap y then 29 else 28 := by
  simp [monthLen, last_day_lookup]

/-- C1: for every recurrence in the enumeration, time-of-day, start date and
reference time, `compute_next_run` returns a timestamp strictly greater than
the reference — when the stored anchor is absent (or unparseable) by
delegating to the first-occurrence computation, and when an anchor `n` with
`n ≤ reference` is given, the result is obtained by iterating the single
recurrence step from `n`, every intermediate iterate lying at or before the
reference (so no step is skipped and none is duplicated). -/
theorem compute_next_run_strictly_after (r tod sd : String) (cur : Option String)
    (reference now : Datetime) (hr : r ∈ RECURRENCE_CHOICES) (hnow : Valid now) :
    ∃ res, compute_next_run cur r tod sd reference now hnow = some res ∧
      toSec reference < toSec res ∧
      ∀ n, parse_dt cur = some n → toSec n ≤ toSec reference →
        ∃ k, 1 ≤ k ∧ stepN r k n = some res ∧
          ∀ j, j < k → ∃ dj, stepN r j n = some dj ∧ toSec dj ≤ toSec reference := by
  cases hp : parse_dt cur with
  | some n =>
    obtain ⟨res, hres⟩ := @advance_total r reference n (parse_dt_valid hp) hr
    refine ⟨res, by rw [compute_next_run_anchor hp]; exact hres, advance_gt hres, ?_⟩
    intro n' hn' hle
    cases hn'
    obtain ⟨k, hs, hone, hall⟩ := advance_chain hres
    exact ⟨k, hone hle, hs, hall⟩
  | none =>
    obtain ⟨fr, hfr⟩ := first_run_dt_total hnow hr
    obtain ⟨res, hres⟩ := @advance_total r reference fr (first_run_dt_valid hfr) hr
    refine ⟨res, by rw [compute_next_run_first hp hfr]; exact hres, advance_gt hres, ?_⟩
    intro n' hn' hle
    exact Option.noConfusion hn'

/-- Witness for C1 at a concrete anchored daily schedule. -/
theorem compute_next_run_strictly_after_witness :
    ∃ res, compute_next_run (some "0005-03-01 07:00:00") "daily" "07:00" "0005-03-01"
        ⟨5, 3, 3, 8, 0, 0⟩ ⟨5, 3, 3, 8, 0, 0⟩ (by decide) = some res ∧
      toSec ⟨5, 3, 3, 8, 0, 0⟩ < toSec res ∧
      ∀ n, parse_dt (some "0005-03-01 07:00:00") = some n →
          toSec n ≤ toSec ⟨5, 3, 3, 8, 0, 0⟩ →
        ∃ k, 1 ≤ k ∧ stepN "daily" k n = some res ∧
          ∀ j, j < k → ∃ dj, stepN "daily" j n = some dj ∧
            toSec dj ≤ toSec ⟨5, 3, 3, 8, 0, 0⟩ :=
  compute_next_run_strictly_after "daily" "07:00" "0005-03-01"
    (some "0005-03-01 07:00:00") ⟨5, 3, 3, 8, 0, 0⟩ ⟨5, 3, 3, 8, 0, 0⟩
    (by decide) (by decide)

/-- C3: the monthly step advances to the same day-of-month of the next month,
clamping to the target month's last day; stepping from January 31 lands on
February 28 or, in a Gregorian leap year, February 29; the following step
from February 28/29 lands on March 28/29 (never March 31 — no forward day
drift), and a 31st in a 30-day month clamps to the 30th. -/
theorem bump_month_clamps (y h mi s : Nat) (dt : Datetime) (hv : Valid dt)
    (hm : dt.month < 12) :
    bump_month ⟨y, 1, 31, h, mi, s⟩ =
      ⟨y, 2, if y % 4 = 0 ∧ (y % 100 ≠ 0 ∨ y % 400 = 0) then 29 else 28, h, mi, s⟩ ∧
    bump_month ⟨y, 2, 28, h, mi, s⟩ = ⟨y, 3, 28, h, mi, s⟩ ∧
    bump_month ⟨y, 2, 29, h, mi, s⟩ = ⟨y, 3, 29, h, mi, s⟩ ∧
    bump_month ⟨y, 3, 31, h, mi, s⟩ = ⟨y, 4, 30, h, mi, s⟩ ∧
    bump_month dt = { dt with
        month := dt.month + 1,
        day := min dt.day (monthLen dt.year (dt.month + 1)) } := by
  refine ⟨?_, ?_, ?_, ?_, ?_⟩
  · by_cases hl : y % 4 = 0 ∧ (y % 100 ≠ 0 ∨ y % 400 = 0)
    · have hleap : isLeap y = true := (isLeap_iff y).mpr hl
      simp [bump_month, last_day_lookup, hleap, hl]
    · have hleap : isLeap y = false := by
        rw [← Bool.not_eq_true]
        exact fun hc => hl ((isLeap_iff y).mp hc)
      simp [bump_month, last_day_lookup, hleap, hl]
  · simp [bump_month, last_day_lookup]
  · simp [bump_month, last_day_lookup]
  · simp [bump_month, last_day_lookup]
  · rw [bump_month_eq, if_neg (by omega : ¬ dt.month + 1 > 12)]

/-- Witness for C3 in the leap year 2024 at 07:00. -/
theorem bump_month_clamps_witness :
    bump_month ⟨2024, 1, 31, 7, 0, 0⟩ =
      ⟨2024, 2, if 2024 % 4 = 0 ∧ (2024 % 100 ≠ 0 ∨ 2024 % 400 = 0) then 29 else 28,
        7, 0, 0⟩ ∧
    bump_month ⟨2024, 2, 28, 7, 0, 0⟩ = ⟨2024, 3, 28, 7, 0, 0⟩ ∧
    bump_month ⟨2024, 2, 29, 7, 0, 0⟩ = ⟨2024, 3, 29, 7, 0, 0⟩ ∧
    bump_month ⟨2024, 3, 31, 7, 0, 0⟩ = ⟨2024, 4, 30, 7, 0, 0⟩ ∧
    bump_month ⟨2024, 2, 29, 7, 0, 0⟩ =
      ⟨2024, 2 + 1, min 29 (monthLen 2024 (2 + 1)), 7, 0, 0⟩ :=
  bump_month_clamps 2024 7 0 0 ⟨2024, 2, 29, 7, 0, 0⟩ (by decide) (by decide)

/-- C9: the calculator's parsers never raise on malformed persisted input —
`_parse_time_str` always yields a valid wall-clock time and yields the
documented default anchor 07:00 whenever its parse attempt fails, and
`_parse_date_str` always yields a valid date and yields the current date
whenever its parse attempt fails. -/
theorem parser_fallbacks (v s : String) (now : Datetime) (hnow : Valid now) :
    ValidTime (parse_time_str v) ∧
    (parse_time_core v = none → parse_time_str v = ⟨7, 0⟩) ∧
    ValidDate (parse_date_str s now) ∧
    (parse_date_core s = none →
      parse_date_str s now = ⟨now.year, now.month, now.day⟩) := by
  refine ⟨parse_time_str_valid v, ?_, parse_date_str_valid s hnow, ?_⟩
  · intro hc
    unfold parse_time_str
    rw [hc]
    rfl
  · intro hc
    unfold parse_date_str
    rw [hc]
    rfl

/-- Witness for C9 on concrete malformed inputs. -/
theorem parser_fallbacks_witness :
    ValidTime (parse_time_str "25:99") ∧
    (parse_time_core "25:99" = none → parse_time_str "25:99" = ⟨7, 0⟩) ∧
    ValidDate (parse_date_str "not-a-date" ⟨2025, 3, 5, 8, 0, 0⟩) ∧
    (parse_date_core "not-a-date" = none →
      parse_date_str "not-a-date" ⟨2025, 3, 5, 8, 0, 0⟩ = ⟨2025, 3, 5⟩) :=
  parser_fallbacks "25:99" "not-a-date" ⟨2025, 3, 5, 8, 0, 0⟩ (by decide)

/-- C10: a schedule whose stored `next_run` string is present but unparseable
is treated as having no `next_run` — `due_schedules` never returns it, and
`compute_next_run` ignores the anchor and recomputes from scratch exactly as
it does for a `NULL` anchor. -/
theorem unparseable_next_run_is_absent (st : ScheduleStore) (reference now : Datetime)
    (hnow : Valid now) (s : Schedule) (str : String) (hs : s.next_run = some str)
    (hbad : parse_dt (some str) = none) (r tod sd : String) :
    s ∉ st.due_schedules reference ∧
    compute_next_run (some str) r tod sd reference now hnow =
      compute_next_run none r tod sd reference now hnow := by
  constructor
  · intro hmem
    unfold ScheduleStore.due_schedules at hmem
    rw [List.mem_filter] at hmem
    have hp := hmem.2
    simp [hs, hbad] at hp
  · have key : ∀ cur : Option String, parse_dt cur = none →
        compute_next_run cur r tod sd reference now hnow =
          (match h2 : first_run_dt r tod sd reference now hnow with
           | some fr => advance r reference fr (first_run_dt_valid h2)
           | none => none) := by
      intro cur hc
      unfold compute_next_run
      split
      · rename_i n hn
        rw [hc] at hn
        cases hn
      · rfl
    rw [key (some str) hbad, key none rfl]

/-- Fixture rows and store used by the concrete witnesses below. -/
def wRow1 : Schedule :=
  { id := 1, key := "daily_report", name := "Daily report", task := "daily",
    recurrence := "daily", time_of_day := "07:00", start_date := "0003-01-01",
    run_for_days_ago := 1, next_run := some "0003-01-02 07:00:00",
    last_run := none, last_status := none, last_message := none,
    last_log_path := none, enabled := true, created_at := "0003-01-01 06:00:00" }

def wRow2 : Schedule :=
  { id := 2, key := "order_report", name := "Order report", task := "order",
    recurrence := "weekly", time_of_day := "08:30", start_date := "0003-01-01",
    run_for_days_ago := 1, next_run := some "0003-01-02 08:30:00",
    last_run := none, last_status := none, last_message := none,
    last_log_path := none, enabled := true, created_at := "0003-01-01 06:00:00" }

def wRowDisabled : Schedule :=
  { id := 3, key := "all_reports", name := "All reports", task := "all",
    recurrence := "monthly", time_of_day := "07:00", start_date := "0001-01-01",
    run_for_days_ago := 1, next_run := some "0001-01-01 00:00:00",
    last_run := none, last_status := none, last_message := none,
    last_log_path := none, enabled := false, created_at := "0001-01-01 00:00:00" }

def wStore : ScheduleStore := ⟨[wRow1, wRow2, wRowDisabled], 4⟩

/-- Witness for C10: the stored string "garbage" parses to nothing. -/
theorem unparseable_next_run_is_absent_witness :
    { wRow1 with next_run := some "garbage" } ∉ wStore.due_schedules ⟨3, 1, 2, 8, 0, 0⟩ ∧
    compute_next_run (some "garbage") "daily" "07:00" "0003-01-01"
        ⟨3, 1, 2, 8, 0, 0⟩ ⟨3, 1, 2, 8, 0, 0⟩ (by decide) =
      compute_next_run none "daily" "07:00" "0003-01-01"
        ⟨3, 1, 2, 8, 0, 0⟩ ⟨3, 1, 2, 8, 0, 0⟩ (by decide) :=
  unparseable_next_run_is_absent wStore ⟨3, 1, 2, 8, 0, 0⟩ ⟨3, 1, 2, 8, 0, 0⟩
    (by decide) { wRow1 with next_run := some "garbage" } "garbage" rfl (by decide)
    "daily" "07:00" "0003-01-01"

/-- C6: `due_schedules(reference)` returns exactly the stored rows that are
enabled and whose `next_run` parses to a timestamp at or before `reference`;
in particular a disabled schedule is never returned, however far in the past
its stored `next_run` lies. -/
theorem due_schedules_spec (st : ScheduleStore) (reference : Datetime) (s : Schedule) :
    (s ∈ st.due_schedules reference ↔
      s ∈ st.rows ∧ s.enabled = true ∧
        ∃ d, parse_dt s.next_run = some d ∧ toSec d ≤ toSec reference) ∧
    (s.enabled = false → s ∉ st.due_schedules reference) := by
  have main : s ∈ st.due_schedules reference ↔
      s ∈ st.rows ∧ s.enabled = true ∧
        ∃ d, parse_dt s.next_run = some d ∧ toSec d ≤ toSec reference := by
    unfold ScheduleStore.due_schedules
    rw [List.mem_filter, List.mem_filter]
    constructor
    · rintro ⟨⟨hmem, hen⟩, hp⟩
      rw [Bool.and_eq_true] at hen
      cases hd : parse_dt s.next_run with
      | none => simp [hd] at hp
      | some d =>
        refine ⟨hmem, hen.1, d, rfl, ?_⟩
        simp [hd] at hp
        exact hp
    · rintro ⟨hmem, hen, d, hd, hle⟩
      refine ⟨⟨hmem, ?_⟩, ?_⟩
      · rw [Bool.and_eq_true]
        exact ⟨hen, parse_dt_isSome hd⟩
      · simp [hd]
        exact hle
  refine ⟨main, fun hen hmem => ?_⟩
  have h2 := (main.mp hmem).2.1
  rw [hen] at h2
  cases h2

/-- Witness for C6: the disabled fixture row, with `next_run` far in the
past, is not due. -/
theorem due_schedules_spec_witness :
    wRowDisabled ∉ wStore.due_schedules ⟨3, 1, 2, 8, 0, 0⟩ :=
  (due_schedules_spec wStore ⟨3, 1, 2, 8, 0, 0⟩ wRowDisabled).2 rfl

theorem map_comp_eq {α β : Type} (f : α → α) (g : α → β) (l : List α)
    (hf : ∀ a, g (f a) = g a) : (l.map f).map g = l.map g := by
  induction l with
  | nil => rfl
  | cons a t ih => simp [hf a, ih]

theorem upsertUpd_key (key name task r tod sd : String) (rfd : Nat) (enabled : Bool)
    (next_str : String) (row : Schedule) :
    (upsertUpd key name task r tod sd rfd enabled next_str row).key = row.key := by
  unfold upsertUpd
  split <;> rfl

theorem upsertUpd_id (key name task r tod sd : String) (rfd : Nat) (enabled : Bool)
    (next_str : String) (row : Schedule) :
    (upsertUpd key name task r tod sd rfd enabled next_str row).id = row.id := by
  unfold upsertUpd
  split <;> rfl

theorem upsert_spec (st : ScheduleStore) (key name task r tod sd : String) (rfd : Int)
    (enabled : Bool) (now : Datetime) (hnow : Valid now) (hWF : st.WF)
    (hr : r ∈ RECURRENCE_CHOICES) :
    ∃ st' s nr,
      st.upsert_schedule key name task r tod sd rfd enabled now hnow = .ok (st', some s) ∧
      st'.WF ∧ st'.get_by_key key = some s ∧
      (st'.rows.filter (fun row => row.key == key)).length = 1 ∧
      s.key = key ∧ s.name = name ∧ s.task = task ∧ s.recurrence = r ∧
      s.time_of_day = tod ∧ s.start_date = sd ∧ s.enabled = enabled ∧
      s.next_run = some (format_dt nr) ∧
      compute_next_run none r tod sd now now hnow = some nr ∧
      (∀ r0, st.get_by_key key = some r0 →
        s.id = r0.id ∧ s.created_at = r0.created_at ∧ s.last_run = r0.last_run ∧
        s.last_status = r0.last_status ∧ s.last_message = r0.last_message ∧
        s.last_log_path = r0.last_log_path) ∧
      (st.get_by_key key = none → s.id = st.nextId ∧ s.created_at = format_dt now ∧
        s.last_run = none ∧ s.last_status = none ∧ s.last_message = none ∧
        s.last_log_path = none) := by
  obtain ⟨h1, h2, h3, h4⟩ := hWF
  obtain ⟨nr, hnr, _⟩ := @compute_next_run_total none r tod sd now now hnow hr
  cases hk : st.get_by_key key with
  | some r0 =>
    have hk' : st.rows.find? (fun row => row.key == key) = some r0 := hk
    have hp0' : (r0.key == key) = true :=
      @List.find?_some _ (fun row => row.key == key) r0 st.rows hk'
    have hkeq : r0.key = key := by simpa using hp0'
    have hmem0 : r0 ∈ st.rows := List.mem_of_find?_eq_some hk'
    have hkeys : ∀ a : Schedule,
        (upsertUpd key name task r tod sd rfd.toNat enabled (format_dt nr) a).key = a.key :=
      upsertUpd_key key name task r tod sd rfd.toNat enabled (format_dt nr)
    have hids : ∀ a : Schedule,
        (upsertUpd key name task r tod sd rfd.toNat enabled (format_dt nr) a).id = a.id :=
      upsertUpd_id key name task r tod sd rfd.toNat enabled (format_dt nr)
    have hpres : ∀ a : Schedule,
        ((fun row => row.key == key)
          (upsertUpd key name task r tod sd rfd.toNat enabled (format_dt nr) a)) =
        ((fun row => row.key == key) a) := by
      intro a
      simp only [hkeys a]
    have hfind : List.find? (fun row => row.key == key)
        (st.rows.map (upsertUpd key name task r tod sd rfd.toNat enabled (format_dt nr))) =
        some (upsertUpd key name task r tod sd rfd.toNat enabled (format_dt nr) r0) := by
      rw [find?_map_comm _ _ _ hpres, hk', Option.map_some']
    have hupd0 : upsertUpd key name task r tod sd rfd.toNat enabled (format_dt nr) r0 =
        { r0 with name := name, task := task, recurrence := r,
                  time_of_day := tod, start_date := sd,
                  run_for_days_ago := rfd.toNat, next_run := some (format_dt nr),
                  enabled := enabled } := by
      unfold upsertUpd
      rw [if_pos hp0']
    refine ⟨⟨st.rows.map (upsertUpd key name task r tod sd rfd.toNat enabled (format_dt nr)),
      st.nextId⟩,
      upsertUpd key name task r tod sd rfd.toNat enabled (format_dt nr) r0, nr,
      ?_, ?_, hfind, ?_, ?_⟩
    · have hfind2 : ScheduleStore.get_by_key
          ⟨st.rows.map (upsertUpd key name task r tod sd rfd.toNat enabled (format_dt nr)),
            st.nextId⟩ key =
          some (upsertUpd key name task r tod sd rfd.toNat enabled (format_dt nr) r0) := hfind
      unfold ScheduleStore.upsert_schedule
      rw [if_pos hr, hnr, hk]
      show Except.ok (_, ScheduleStore.get_by_key _ key) = _
      rw [hfind2]
    · refine ⟨?_, ?_, ?_, h4⟩
      · rw [map_comp_eq _ _ _ hkeys]
        exact h1
      · rw [map_comp_eq _ _ _ hids]
        exact h2
      · intro s' hs'
        obtain ⟨a, ha, rfl⟩ := List.mem_map.mp hs'
        obtain ⟨ha1, ha2, ha3⟩ := h3 a ha
        refine ⟨by rw [hids a]; exact ha1, by rw [hids a]; exact ha2, ?_⟩
        unfold upsertUpd
        split
        · exact hr
        · exact ha3
    · rw [filter_map_comm _ _ _ hpres]
      rw [List.length_map]
      have hle : (st.rows.filter (fun row => row.key == key)).length ≤ 1 :=
        filter_key_len_le_one h1
      have hge : r0 ∈ st.rows.filter (fun row => row.key == key) :=
        List.mem_filter.mpr ⟨hmem0, hp0'⟩
      have := List.length_pos.mpr (List.ne_nil_of_mem hge)
      omega
    · rw [hupd0]
      refine ⟨by simpa using hkeq, rfl, rfl, rfl, rfl, rfl, rfl, rfl, hnr, ?_, ?_⟩
      · intro r1 hr1
        cases hr1
        exact ⟨rfl, rfl, rfl, rfl, rfl, rfl⟩
      · intro hc
        cases hc
  | none =>
    have hk' : st.rows.find? (fun row => row.key == key) = none := hk
    have hnomem : ∀ x ∈ st.rows, ¬((fun row => row.key == key) x = true) :=
      List.find?_eq_none.mp hk'
    set newRow : Schedule :=
      { id := st.nextId, key := key, name := name, task := task,
        recurrence := r, time_of_day := tod, start_date := sd,
        run_for_days_ago := rfd.toNat, next_run := some (format_dt nr),
        last_run := none, last_status := none, last_message := none,
        last_log_path := none, enabled := enabled, created_at := format_dt now }
      with hnewRow
    have hfind2 : ScheduleStore.get_by_key ⟨st.rows ++ [newRow], st.nextId + 1⟩ key =
        some newRow := by
      show List.find? _ (st.rows ++ [_]) = _
      rw [find?_append_none _ hk']
      refine List.find?_cons_of_pos _ ?_
      rw [hnewRow]
      simp
    refine ⟨⟨st.rows ++ [newRow], st.nextId + 1⟩, newRow, nr, ?_, ?_, hfind2, ?_, ?_⟩
    · unfold ScheduleStore.upsert_schedule
      rw [if_pos hr, hnr, hk]
      show Except.ok (_, ScheduleStore.get_by_key _ key) = _
      rw [hfind2]
    · refine ⟨?_, ?_, ?_, by show 1 ≤ st.nextId + 1; omega⟩
      · show (List.map Schedule.key (st.rows ++ [newRow])).Nodup
        rw [List.map_append]
        refine List.Nodup.append h1 (by simp) ?_
        intro a ha hb
        simp only [List.map_cons, List.map_nil, List.mem_singleton] at hb
        subst hb
        obtain ⟨x, hx, hxk⟩ := List.mem_map.mp ha
        exact hnomem x hx (by simp [hxk])
      · show (List.map Schedule.id (st.rows ++ [newRow])).Nodup
        rw [List.map_append]
        refine List.Nodup.append h2 (by simp) ?_
        intro a ha hb
        simp only [List.map_cons, List.map_nil, List.mem_singleton] at hb
        subst hb
        obtain ⟨x, hx, hxk⟩ := List.mem_map.mp ha
        have hlt := (h3 x hx).2.1
        omega
      · intro s' hs'
        rcases List.mem_append.mp hs' with h | h
        · obtain ⟨ha1, ha2, ha3⟩ := h3 s' h
          refine ⟨ha1, ?_, ha3⟩
          show s'.id < st.nextId + 1
          omega
        · simp only [List.mem_singleton] at h
          subst h
          refine ⟨h4, ?_, hr⟩
          show st.nextId < st.nextId + 1
          omega
    · rw [List.filter_append]
      rw [List.filter_eq_nil_iff.mpr hnomem]
      rw [hnewRow]
      simp
    · rw [hnewRow]
      refine ⟨rfl, rfl, rfl, rfl, rfl, rfl, rfl, rfl, hnr, ?_, ?_⟩
      · intro r1 hr1
        cases hr1
      · intro _
        exact ⟨rfl, rfl, rfl, rfl, rfl, rfl⟩

/-- C7: `upsert_schedule` fails with the `InvalidRecurrence` error exactly
when its recurrence argument lies outside `RECURRENCE_CHOICES`, storing
nothing (the error carries no updated store); for every recurrence in the
enumeration it succeeds and stores that recurrence verbatim, never coercing
it. -/
theorem upsert_validates_recurrence (st : ScheduleStore) (key name task r tod sd : String)
    (rfd : Int) (enabled : Bool) (now : Datetime) (hnow : Valid now) (hWF : st.WF) :
    (r ∉ RECURRENCE_CHOICES →
      st.upsert_schedule key name task r tod sd rfd enabled now hnow =
        .error ("recurrence must be one of " ++ String.intercalate ", " RECURRENCE_CHOICES)) ∧
    (r ∈ RECURRENCE_CHOICES →
      ∃ st' s, st.upsert_schedule key name task r tod sd rfd enabled now hnow =
        .ok (st', some s) ∧ s.recurrence = r ∧ st'.get_by_key key = some s) := by
  constructor
  · intro hout
    unfold ScheduleStore.upsert_schedule
    rw [if_neg hout]
  · intro hr
    obtain ⟨st', s, nr, heq, _, hget, _, _, _, _, hrec, _⟩ :=
      upsert_spec st key name task r tod sd rfd enabled now hnow hWF hr
    exact ⟨st', s, heq, hrec, hget⟩

/-- Witness for C7: "fortnightly" is rejected, "weekly" is stored verbatim. -/
theorem upsert_validates_recurrence_witness :
    (("fortnightly" : String) ∉ RECURRENCE_CHOICES →
      wStore.upsert_schedule "k2" "N" "T" "fortnightly" "07:00" "0003-01-01" 1 true
          ⟨3, 1, 2, 8, 0, 0⟩ (by decide) =
        .error ("recurrence must be one of " ++ String.intercalate ", " RECURRENCE_CHOICES)) ∧
    (("fortnightly" : String) ∈ RECURRENCE_CHOICES →
      ∃ st' s, wStore.upsert_schedule "k2" "N" "T" "fortnightly" "07:00" "0003-01-01" 1 true
          ⟨3, 1, 2, 8, 0, 0⟩ (by decide) = .ok (st', some s) ∧
        s.recurrence = "fortnightly" ∧ st'.get_by_key "k2" = some s) :=
  upsert_validates_recurrence wStore "k2" "N" "T" "fortnightly" "07:00" "0003-01-01" 1 true
    ⟨3, 1, 2, 8, 0, 0⟩ (by decide) (by decide)

/-- C5: upserting twice with the same key and different names leaves exactly
one stored schedule for that key, carrying the second name, with `id` and
`created_at` unchanged from the first call and every run-history field
(`last_run`, `last_status`, `last_message`, `last_log_path`) preserved rather
than reset. -/
theorem upsert_idempotent (st : ScheduleStore) (key n1 n2 task r tod sd : String)
    (rfd : Int) (enabled : Bool) (now1 now2 : Datetime) (h1 : Valid now1)
    (h2 : Valid now2) (hWF : st.WF) (hr : r ∈ RECURRENCE_CHOICES) :
    ∃ st1 s1 st2 s2,
      st.upsert_schedule key n1 task r tod sd rfd enabled now1 h1 = .ok (st1, some s1) ∧
      st1.upsert_schedule key n2 task r tod sd rfd enabled now2 h2 = .ok (st2, some s2) ∧
      (st2.rows.filter (fun row => row.key == key)).length = 1 ∧
      s2.name = n2 ∧ s2.id = s1.id ∧ s2.created_at = s1.created_at ∧
      s2.last_run = s1.last_run ∧ s2.last_status = s1.last_status ∧
      s2.last_message = s1.last_message ∧ s2.last_log_path = s1.last_log_path := by
  obtain ⟨st1, s1, nr1, heq1, hWF1, hget1, _, _, _, _, _, _, _, _, _, _, _, _⟩ :=
    upsert_spec st key n1 task r tod sd rfd enabled now1 h1 hWF hr
  obtain ⟨st2, s2, nr2, heq2, _, _, hcount2, _, hname2, _, _, _, _, _, _, _, hupd2, _⟩ :=
    upsert_spec st1 key n2 task r tod sd rfd enabled now2 h2 hWF1 hr
  obtain ⟨hid, hcr, hlr, hls, hlm, hlp⟩ := hupd2 s1 hget1
  exact ⟨st1, s1, st2, s2, heq1, heq2, hcount2, hname2, hid, hcr, hlr, hls, hlm, hlp⟩

/-- Witness for C5 on a fresh key in the fixture store. -/
theorem upsert_idempotent_witness :
    ∃ st1 s1 st2 s2,
      wStore.upsert_schedule "k3" "First" "T" "daily" "07:00" "0003-01-01" 1 true
          ⟨3, 1, 2, 8, 0, 0⟩ (by decide) = .ok (st1, some s1) ∧
      st1.upsert_schedule "k3" "Second" "T" "daily" "07:00" "0003-01-01" 1 true
          ⟨3, 1, 2, 9, 0, 0⟩ (by decide) = .ok (st2, some s2) ∧
      (st2.rows.filter (fun row => row.key == "k3")).length = 1 ∧
      s2.name = "Second" ∧ s2.id = s1.id ∧ s2.created_at = s1.created_at ∧
      s2.last_run = s1.last_run ∧ s2.last_status = s1.last_status ∧
      s2.last_message = s1.last_message ∧ s2.last_log_path = s1.last_log_path :=
  upsert_idempotent wStore "k3" "First" "Second" "T" "daily" "07:00" "0003-01-01" 1 true
    ⟨3, 1, 2, 8, 0, 0⟩ ⟨3, 1, 2, 9, 0, 0⟩ (by decide) (by decide) (by decide) (by decide)

theorem markUpd_id (schedule_id : Nat) (success : Bool) (message log_path : Option String)
    (now : Datetime) (next_str : String) (job row : Schedule) :
    (markUpd schedule_id success message log_path now next_str job row).id = row.id := by
  unfold markUpd
  split <;> rfl

theorem mark_completed_spec (st : ScheduleStore) (schedule_id : Nat) (success : Bool)
    (message log_path : Option String) (now : Datetime) (hnow : Valid now) (hWF : st.WF)
    (job : Schedule) (hj : st.get schedule_id = some job) :
    ∃ st' d, st.mark_completed schedule_id success message log_path now hnow =
        .ok (st', some (format_dt d)) ∧
      compute_next_run job.next_run job.recurrence job.time_of_day job.start_date
        now now hnow = some d ∧
      toSec now < toSec d ∧
      ∃ job', st'.get schedule_id = some job' ∧
        job'.next_run = some (format_dt d) ∧
        job'.last_run = some (format_dt now) ∧
        job'.last_status = some (if success then "success" else "failed") ∧
        job'.last_message = some (message.getD "") ∧
        job'.id = job.id ∧ job'.key = job.key := by
  obtain ⟨h1, h2, h3, h4⟩ := hWF
  have hj' : st.rows.find? (fun row => row.id == schedule_id) = some job := hj
  have hmem : job ∈ st.rows := List.mem_of_find?_eq_some hj'
  have hrj : job.recurrence ∈ RECURRENCE_CHOICES := (h3 job hmem).2.2
  obtain ⟨d, hd, hgt⟩ := @compute_next_run_total job.next_run job.recurrence
    job.time_of_day job.start_date now now hnow hrj
  have hpres : ∀ a : Schedule,
      ((fun row => row.id == schedule_id)
        (markUpd schedule_id success message log_path now (format_dt d) job a)) =
      ((fun row => row.id == schedule_id) a) := by
    intro a
    simp only [markUpd_id]
  have hpj : (job.id == schedule_id) = true :=
    @List.find?_some _ (fun row => row.id == schedule_id) job st.rows hj'
  have hfind : ScheduleStore.get
      ⟨st.rows.map (markUpd schedule_id success message log_path now (format_dt d) job),
        st.nextId⟩ schedule_id =
      some (markUpd schedule_id success message log_path now (format_dt d) job job) := by
    show List.find? _ _ = _
    rw [find?_map_comm _ _ _ hpres, hj', Option.map_some']
  refine ⟨⟨st.rows.map (markUpd schedule_id success message log_path now (format_dt d) job),
    st.nextId⟩, d, ?_, hd, hgt,
    markUpd schedule_id success message log_path now (format_dt d) job job,
    hfind, ?_, ?_, ?_, ?_, ?_, ?_⟩
  · simp only [ScheduleStore.mark_completed, hj, hd]
  · simp [markUpd, hpj]
  · simp [markUpd, hpj]
  · simp [markUpd, hpj]
  · simp [markUpd, hpj]
  · simp [markUpd, hpj]
  · simp [markUpd, hpj]

/-- C4 (amended): for an existing schedule whose stored `next_run` parses to
an anchor `n` that is due (`n ≤ now`), `mark_completed` — with any success
flag, in particular `success = false` — re-arms the schedule: it recomputes
`next_run` via `compute_next_run` anchored on the stored `next_run` with
reference `now`, and the stored timestamp becomes strictly later than `n`
(indeed strictly later than `now`).  The unconditional claim, without the
due-ness premise `n ≤ now`, is refuted by
`mark_completed_no_advance_counterexample`. -/
theorem mark_completed_advances (st : ScheduleStore) (schedule_id : Nat) (success : Bool)
    (message log_path : Option String) (now : Datetime) (hnow : Valid now) (hWF : st.WF)
    (job : Schedule) (hj : st.get schedule_id = some job) (n : Datetime)
    (hn : parse_dt job.next_run = some n) (hdue : toSec n ≤ toSec now) :
    ∃ st' d job', st.mark_completed schedule_id success message log_path now hnow =
        .ok (st', some (format_dt d)) ∧
      compute_next_run job.next_run job.recurrence job.time_of_day job.start_date
        now now hnow = some d ∧
      toSec n < toSec d ∧ toSec now < toSec d ∧
      st'.get schedule_id = some job' ∧ job'.next_run = some (format_dt d) ∧
      job'.last_status = some (if success then "success" else "failed") := by
  obtain ⟨st', d, heq, hcomp, hgt, job', hget, hnr, _, hls, _, _, _⟩ :=
    mark_completed_spec st schedule_id success message log_path now hnow hWF job hj
  exact ⟨st', d, job', heq, hcomp, by omega, hgt, hget, hnr, hls⟩

/-- Witness for C4 (amended): a failed completion of the due fixture schedule
still advances its `next_run`. -/
theorem mark_completed_advances_witness :
    ∃ st' d job', wStore.mark_completed 1 false none none ⟨3, 1, 2, 8, 0, 0⟩ (by decide) =
        .ok (st', some (format_dt d)) ∧
      compute_next_run wRow1.next_run wRow1.recurrence wRow1.time_of_day wRow1.start_date
        ⟨3, 1, 2, 8, 0, 0⟩ ⟨3, 1, 2, 8, 0, 0⟩ (by decide) = some d ∧
      toSec ⟨3, 1, 2, 7, 0, 0⟩ < toSec d ∧ toSec ⟨3, 1, 2, 8, 0, 0⟩ < toSec d ∧
      st'.get 1 = some job' ∧ job'.next_run = some (format_dt d) ∧
      job'.last_status = some (if false then "success" else "failed") :=
  mark_completed_advances wStore 1 false none none ⟨3, 1, 2, 8, 0, 0⟩ (by decide)
    (by decide) wRow1 (by decide) ⟨3, 1, 2, 7, 0, 0⟩ (by decide) (by decide)

/-- Counterexample to C4 as stated: schedule 1 exists and its stored
`next_run` "0003-01-02 07:00:00" is still in the future at `now` =
0003-01-01 12:00:00; `mark_completed(1, success := false)` succeeds but
stores the identical `next_run` timestamp back — not a strictly later one. -/
theorem mark_completed_no_advance_counterexample :
    wStore.get 1 = some wRow1 ∧
    wRow1.next_run = some "0003-01-02 07:00:00" ∧
    wStore.mark_completed 1 false none none ⟨3, 1, 1, 12, 0, 0⟩ (by decide) =
      .ok (⟨[{ wRow1 with
                 last_run := some "0003-01-01 12:00:00",
                 last_status := some "failed",
                 last_message := some "",
                 next_run := some "0003-01-02 07:00:00" }, wRow2, wRowDisabled], 4⟩,
        some "0003-01-02 07:00:00") := by
  refine ⟨by decide, rfl, ?_⟩
  have hpd : parse_dt (some "0003-01-02 07:00:00") = some ⟨3, 1, 2, 7, 0, 0⟩ := by decide
  have hadv : advance "daily" ⟨3, 1, 1, 12, 0, 0⟩ ⟨3, 1, 2, 7, 0, 0⟩ (parse_dt_valid hpd) =
      some ⟨3, 1, 2, 7, 0, 0⟩ := by
    rw [advance, if_neg (by decide)]
  have hcomp : compute_next_run (some "0003-01-02 07:00:00") "daily" "07:00" "0003-01-01"
      ⟨3, 1, 1, 12, 0, 0⟩ ⟨3, 1, 1, 12, 0, 0⟩ (by decide) = some ⟨3, 1, 2, 7, 0, 0⟩ := by
    rw [compute_next_run_anchor hpd]
    exact hadv
  have hget : wStore.get 1 = some wRow1 := by decide
  simp only [ScheduleStore.mark_completed, hget]
  have hrw : compute_next_run wRow1.next_run wRow1.recurrence wRow1.time_of_day
      wRow1.start_date ⟨3, 1, 1, 12, 0, 0⟩ ⟨3, 1, 1, 12, 0, 0⟩ (by decide) =
      some ⟨3, 1, 2, 7, 0, 0⟩ := hcomp
  rw [hrw]
  rfl

/-- C2: while `activeScheduleId` is set (a nonzero id, the only kind the
store issues), a poll tick invokes no `on_job_due` callback and changes
nothing; on a tick where it is unset (and the host predicate does not refuse)
with schedules due, exactly one `on_job_due` invocation occurs — for the
first due schedule in iteration order; when the callback accepts, that id
becomes active, a subsequent tick dispatches nothing, and only
`mark_run_complete` with the matching id clears `activeScheduleId` (a
non-matching id leaves it set) — so at most one schedule is active
system-wide at any time. -/
theorem single_flight (s : ServiceState) (can_start cs2 : Option Bool)
    (cb cb2 : Schedule → CallbackResult) (now now2 : Datetime) (hnow : Valid now)
    (hnow2 : Valid now2) (succ2 : Bool) (msg2 lp2 : Option String) :
    (∀ i, s.active = some i → i ≠ 0 →
      run_tick s can_start cb now hnow = ⟨s, [], [], false⟩) ∧
    (s.active = none → can_start ≠ some false →
      ∀ j rest, s.store.due_schedules now = j :: rest →
        (run_tick s can_start cb now hnow).dispatched = [j.id] ∧
        (cb j = .accepted →
          (run_tick s can_start cb now hnow).state.active = some j.id ∧
          (j.id ≠ 0 →
            run_tick (run_tick s can_start cb now hnow).state cs2 cb2 now2 hnow2 =
              ⟨(run_tick s can_start cb now hnow).state, [], [], false⟩) ∧
          (mark_run_complete (run_tick s can_start cb now hnow).state j.id succ2 msg2 lp2
              now2 hnow2).1.active = none ∧
          (∀ k, k ≠ j.id →
            (mark_run_complete (run_tick s can_start cb now hnow).state k succ2 msg2 lp2
                now2 hnow2).1.active = some j.id))) := by
  constructor
  · intro i hi hne
    have ht : truthy s.active = true := by
      rw [hi]
      simp [truthy, hne]
    unfold run_tick
    rw [if_pos ht]
  · intro hact hcs j rest hdue
    have hc1 : ¬ (truthy s.active = true) := by
      rw [hact]
      simp [truthy]
    constructor
    · cases hcb : cb j with
      | accepted =>
        unfold run_tick
        rw [if_neg hc1, if_neg hcs]
        simp only [hdue, hcb]
      | rejected =>
        unfold run_tick
        rw [if_neg hc1, if_neg hcs]
        simp only [hdue, hcb]
      | raised msg =>
        unfold run_tick
        rw [if_neg hc1, if_neg hcs]
        simp only [hdue, hcb]
        cases hm : ScheduleStore.mark_completed s.store j.id false
            (some ("Failed to start: " ++ msg)) none now hnow with
        | ok p =>
          obtain ⟨st', r⟩ := p
          simp [hm]
        | error e => simp [hm]
    · intro hcb
      have htick : run_tick s can_start cb now hnow =
          ⟨⟨s.store, some j.id⟩, [j.id], [], false⟩ := by
        unfold run_tick
        rw [if_neg hc1, if_neg hcs]
        simp only [hdue, hcb]
      rw [htick]
      refine ⟨rfl, ?_, ?_, ?_⟩
      · intro hne
        have ht2 : truthy (some j.id) = true := by simp [truthy, hne]
        unfold run_tick
        rw [if_pos ht2]
      · unfold mark_run_complete
        cases hm : ScheduleStore.mark_completed s.store j.id succ2 msg2 lp2 now2 hnow2 with
        | ok p =>
          obtain ⟨st', r⟩ := p
          simp [hm]
        | error e => simp [hm]
      · intro k hk
        unfold mark_run_complete
        have hne2 : ((⟨s.store, some j.id⟩ : ServiceState).active = some k) = False := by
          simp
          exact fun hc => hk hc.symm
        cases hm : ScheduleStore.mark_completed s.store k succ2 msg2 lp2 now2 hnow2 with
        | ok p =>
          obtain ⟨st', r⟩ := p
          simp [hm, hne2]
        | error e => simp [hm, hne2]

/-- C8: when the `on_job_due` callback raises during a poll tick, the
scheduler catches the exception (the tick returns normally, `escaped =
false`, so the loop survives to poll again), logs it through the
caller-supplied sink, marks the schedule completed with `success = false` and
the descriptive message "Failed to start: ...", re-arms its `next_run`
strictly past `now`, and clears `activeScheduleId`. -/
theorem callback_exception_contained (s : ServiceState) (can_start : Option Bool)
    (cb : Schedule → CallbackResult) (now : Datetime) (hnow : Valid now)
    (hWF : s.store.WF) (hact : s.active = none) (hcs : can_start ≠ some false)
    (j : Schedule) (rest : List Schedule) (hdue : s.store.due_schedules now = j :: rest)
    (msg : String) (hcb : cb j = .raised msg) :
    ∃ st' d job',
      run_tick s can_start cb now hnow =
        ⟨⟨st', none⟩, [j.id],
          ["Failed to start scheduled job " ++ j.name ++ ": " ++ msg], false⟩ ∧
      st'.get j.id = some job' ∧
      job'.last_status = some "failed" ∧
      job'.last_message = some ("Failed to start: " ++ msg) ∧
      job'.next_run = some (format_dt d) ∧ toSec now < toSec d := by
  have hmem_due : j ∈ s.store.due_schedules now := by
    rw [hdue]
    exact List.mem_cons_self j rest
  have hmem : j ∈ s.store.rows := by
    unfold ScheduleStore.due_schedules at hmem_due
    exact (List.mem_filter.mp (List.mem_filter.mp hmem_due).1).1
  have hgetj : s.store.get j.id = some j := find?_id_of_mem hWF.2.1 hmem
  obtain ⟨st', d, heq, hcomp, hgt, job', hget', hnr', hlr', hls', hlm', _, _⟩ :=
    mark_completed_spec s.store j.id false (some ("Failed to start: " ++ msg)) none
      now hnow hWF j hgetj
  have hc1 : ¬ (truthy s.active = true) := by
    rw [hact]
    simp [truthy]
  refine ⟨st', d, job', ?_, hget', by simpa using hls', by simpa using hlm', hnr', hgt⟩
  unfold run_tick
  rw [if_neg hc1, if_neg hcs]
  simp only [hdue, hcb, heq]

/-- Witness for C2 on the fixture store with two simultaneously due
schedules and an accepting callback. -/
theorem single_flight_witness :
    (∀ i, (⟨wStore, none⟩ : ServiceState).active = some i → i ≠ 0 →
      run_tick ⟨wStore, none⟩ none (fun _ => .accepted) ⟨3, 1, 2, 9, 0, 0⟩ (by decide) =
        ⟨⟨wStore, none⟩, [], [], false⟩) ∧
    ((⟨wStore, none⟩ : ServiceState).active = none → (none : Option Bool) ≠ some false →
      ∀ j rest, wStore.due_schedules ⟨3, 1, 2, 9, 0, 0⟩ = j :: rest →
        (run_tick ⟨wStore, none⟩ none (fun _ => .accepted) ⟨3, 1, 2, 9, 0, 0⟩
          (by decide)).dispatched = [j.id] ∧
        ((fun _ => CallbackResult.accepted) j = .accepted →
          (run_tick ⟨wStore, none⟩ none (fun _ => .accepted) ⟨3, 1, 2, 9, 0, 0⟩
            (by decide)).state.active = some j.id ∧
          (j.id ≠ 0 →
            run_tick (run_tick ⟨wStore, none⟩ none (fun _ => .accepted)
                ⟨3, 1, 2, 9, 0, 0⟩ (by decide)).state none (fun _ => .accepted)
                ⟨3, 1, 2, 9, 1, 0⟩ (by decide) =
              ⟨(run_tick ⟨wStore, none⟩ none (fun _ => .accepted) ⟨3, 1, 2, 9, 0, 0⟩
                (by decide)).state, [], [], false⟩) ∧
          (mark_run_complete (run_tick ⟨wStore, none⟩ none (fun _ => .accepted)
              ⟨3, 1, 2, 9, 0, 0⟩ (by decide)).state j.id true none none
              ⟨3, 1, 2, 9, 1, 0⟩ (by decide)).1.active = none ∧
          (∀ k, k ≠ j.id →
            (mark_run_complete (run_tick ⟨wStore, none⟩ none (fun _ => .accepted)
                ⟨3, 1, 2, 9, 0, 0⟩ (by decide)).state k true none none
                ⟨3, 1, 2, 9, 1, 0⟩ (by decide)).1.active = some j.id))) :=
  single_flight ⟨wStore, none⟩ none none (fun _ => .accepted) (fun _ => .accepted)
    ⟨3, 1, 2, 9, 0, 0⟩ ⟨3, 1, 2, 9, 1, 0⟩ (by decide) (by decide) true none none

/-- Witness for C8: a callback raising "boom" on the first due fixture
schedule. -/
theorem callback_exception_contained_witness :
    ∃ st' d job',
      run_tick ⟨wStore, none⟩ none (fun _ => .raised "boom") ⟨3, 1, 2, 9, 0, 0⟩
          (by decide) =
        ⟨⟨st', none⟩, [wRow1.id],
          ["Failed to start scheduled job " ++ wRow1.name ++ ": " ++ "boom"], false⟩ ∧
      st'.get wRow1.id = some job' ∧
      job'.last_status = some "failed" ∧
      job'.last_message = some ("Failed to start: " ++ "boom") ∧
      job'.next_run = some (format_dt d) ∧ toSec ⟨3, 1, 2, 9, 0, 0⟩ < toSec d :=
  callback_exception_contained ⟨wStore, none⟩ none (fun _ => .raised "boom")
    ⟨3, 1, 2, 9, 0, 0⟩ (by decide) (by decide) rfl (by decide) wRow1 [wRow2]
    (by decide) "boom" rfl
